import Mathlib

set_option maxHeartbeats 1000000

/-!
Verification of the scientific-name parser (`sci_name_parser.py`).

The parser is embedded shallowly: a Python string is a `String`, a token is a
`List Char`, and every mutation of the working token list in the source is an
explicit stage function.  `parse` is the total embedding; `parseExc` models
every fallible subscript / `list.index` / `list.pop` operation of the source
in an `Except` monad with the same `try/except IndexError` placement, so that
the no-exception claim is a real theorem rather than a triviality of Lean.
-/

namespace SciName

/-- Chars of a string literal (a Python `str` viewed as its characters). -/
def w (s : String) : List Char := s.data

/-- Source line 54: the hybrid-sign characters.  The source lists the
multiplication sign twice (once literally, once as the escape `×`);
they are the same character. -/
def hybridChars : List Char := ['×', '×']

/-- Source line 55: the abbreviation tokens that may follow a lone genus. -/
def abbreviation_ignore : List (List Char) :=
  [w "cv", w "cv.", w "var", w "var.", w "sp", w "sp.", w "ssp", w "ssp.",
   w "sbsp", w "sbsp.", w "subsp", w "subsp.", w "X", w "x", w "×", w "×", w "f."]

/-- Python `str.replace` for a three-character pattern `[a, b, c]`:
left-to-right, non-overlapping, the replacement is not rescanned. -/
def repl3 (a b c : Char) (r : List Char) : List Char → List Char
  | [] => []
  | [x] => [x]
  | [x, y] => [x, y]
  | x :: y :: z :: rest =>
    if x = a ∧ y = b ∧ z = c then r ++ repl3 a b c r rest
    else x :: repl3 a b c r (y :: z :: rest)

/-- Source line 68: `scientific_name.replace(' x ',' × ').replace(' X ',' × ')`. -/
def cleanName (l : List Char) : List Char :=
  repl3 ' ' 'X' ' ' (w " × ") (repl3 ' ' 'x' ' ' (w " × ") l)

/-- Helper for `splitWs`; `cur` is the reversed current token. -/
def splitWsAux (cur : List Char) : List Char → List (List Char)
  | [] => if cur = [] then [] else [cur.reverse]
  | c :: cs =>
    if c.isWhitespace then
      if cur = [] then splitWsAux [] cs else cur.reverse :: splitWsAux [] cs
    else splitWsAux (c :: cur) cs

/-- Python `str.split()` with no argument: split on runs of whitespace,
never producing empty tokens. -/
def splitWs (l : List Char) : List (List Char) := splitWsAux [] l

/-- Source lines 68-71: normalise the hybrid sign, then tokenize. -/
def tokenize (s : String) : List (List Char) := splitWs (cleanName s.data)

/-- Source line 79: the first token starts with a hybrid sign and has length
other than one.  (The source indexes `tokens[0][0]`; tokens produced by
`split()` are never empty.) -/
def genusHybridCond (t : List Char) : Bool :=
  match t with
  | [] => false
  | c :: _ => hybridChars.contains c && t.length != 1

/-- The token list after the genus-hybrid stage (source lines 79-81), which
strips a glued leading hybrid sign off the first token. -/
def tokensAfterGenus (s : String) : List (List Char) :=
  match tokenize s with
  | [] => []
  | t0 :: rest => (if genusHybridCond t0 then t0.drop 1 else t0) :: rest

/-- Source line 83: `Genus = scientific_name_tokens[0]` (after the strip). -/
def genusOf (s : String) : List Char :=
  match tokensAfterGenus s with
  | [] => []
  | t0 :: _ => t0

/-- Source lines 86-91: rank `Genus` for a single token, or for exactly two
tokens whose second is an ignorable abbreviation (which is then popped).
Returns the assigned rank (`[]` when nothing was assigned) and the tokens. -/
def rankGenusStage (ts : List (List Char)) : List Char × List (List Char) :=
  if ts.length = 1 then (w "Genus", ts)
  else if ts.length = 2 ∧ ts.getD 1 [] ∈ abbreviation_ignore then (w "Genus", ts.eraseIdx 1)
  else ([], ts)

/-- The rank after the genus stage. -/
def rankAfterRank (s : String) : List Char := (rankGenusStage (tokensAfterGenus s)).1

/-- The working token list after the genus-rank stage. -/
def tokensAfterRank (s : String) : List (List Char) := (rankGenusStage (tokensAfterGenus s)).2

/-- Source line 96: strip every `×` from every token and drop tokens that
become empty, but only when some token contains a `×` (line 94). -/
def stripTokens (ts : List (List Char)) : List (List Char) :=
  if ts.any (fun t => t.contains '×') then
    ((ts.map (fun t => t.filter (fun c => c != '×'))).filter (fun t => !t.isEmpty))
  else ts

/-- Source line 94: some working token contains an embedded hybrid sign. -/
def speciesHybridFlag (s : String) : Bool :=
  (tokensAfterRank s).any (fun t => t.contains '×')

/-- The working token list after the species-hybrid stage. -/
def tokensAfterHybrid (s : String) : List (List Char) := stripTokens (tokensAfterRank s)

/-- Source lines 101-102: the species epithet, when more than one token
remains after the hybrid stage. -/
def speciesOf (s : String) : List Char :=
  if (tokensAfterHybrid s).length > 1 then (tokensAfterHybrid s).getD 1 [] else []

/-- The rank right before the infraspecific scans: `Species` when a species
epithet was assigned (line 103), otherwise whatever the genus stage left. -/
def preInfraRank (s : String) : List Char :=
  if (tokensAfterHybrid s).length > 1 then w "Species" else (rankGenusStage (tokensAfterGenus s)).1

/-- Whether the genus-hybrid marker was recorded (source line 80). -/
def genusHybridFlag (s : String) : Bool :=
  match tokenize s with
  | [] => false
  | t0 :: _ => genusHybridCond t0

/-- Python `list.index`: the index of the first occurrence. -/
def firstIdx (a : List Char) : List (List Char) → Nat
  | [] => 0
  | t :: ts => if t = a then 0 else firstIdx a ts + 1

/-- `tokens[tokens.index(a) + 1]`, with `none` for the caught `IndexError`. -/
def scanEpithet (a : List Char) (ts : List (List Char)) : Option (List Char) :=
  ts.get? (firstIdx a ts + 1)

/-- Source lines 106-114: the variety scan (`var.` first, else `var`). -/
def varScan (ts : List (List Char)) : Option (List Char) :=
  if w "var." ∈ ts then scanEpithet (w "var.") ts
  else if w "var" ∈ ts then scanEpithet (w "var") ts
  else none

/-- Source lines 117-131: the subspecies scan
(`subsp.`, then `ssp.`, then `sbsp.`, then `subsp`). -/
def subspScan (ts : List (List Char)) : Option (List Char) :=
  if w "subsp." ∈ ts then scanEpithet (w "subsp.") ts
  else if w "ssp." ∈ ts then scanEpithet (w "ssp.") ts
  else if w "sbsp." ∈ ts then scanEpithet (w "sbsp.") ts
  else if w "subsp" ∈ ts then scanEpithet (w "subsp") ts
  else none

/-- Source lines 136-142: the form scan (`f.`). -/
def formScan (ts : List (List Char)) : Option (List Char) :=
  if w "f." ∈ ts then scanEpithet (w "f.") ts else none

/-- Source lines 106-142: the three infraspecific scans run in sequence,
each overwriting rank and infraspecies on a match.  Returns
`(taxon_rank, infraspecies, variety, subspecies, form)`. -/
def infraStage (ingnore_form : Bool) (ts : List (List Char)) (rank : List Char) :
    List Char × List Char × List Char × List Char × List Char :=
  let s1 : List Char × List Char × List Char :=
    match varScan ts with
    | some e => (w "Variety", e, e)
    | none => (rank, [], [])
  let s2 : List Char × List Char × List Char :=
    match subspScan ts with
    | some e => (w "Subspecies", e, e)
    | none => (s1.1, s1.2.1, [])
  let s3 : List Char × List Char × List Char :=
    if ingnore_form then (s2.1, s2.2.1, [])
    else
      match formScan ts with
      | some e => (w "Form", e, e)
      | none => (s2.1, s2.2.1, [])
  (s3.1, s3.2.1, s1.2.2, s2.2.2, s3.2.2)

/-- The record produced by `parse_scientific_name` (source lines 144-153). -/
structure ParsedName where
  taxon_rank : List Char
  genus : List Char
  species : List Char
  genus_hybrid : List Char
  species_hybrid : List Char
  infraspecies : List Char
  variety : List Char
  subspecies : List Char
  form : List Char
deriving DecidableEq, Repr

/-- The total embedding of `parse_scientific_name` (source lines 37-155),
composed from the stage functions above in the source's order. -/
def parse (scientific_name : String) (ingnore_form : Bool) : Option ParsedName :=
  match tokenize scientific_name with
  | [] => none
  | _ :: _ =>
    let res := infraStage ingnore_form (tokensAfterHybrid scientific_name)
      (preInfraRank scientific_name)
    some { taxon_rank := res.1, genus := genusOf scientific_name,
           species := speciesOf scientific_name,
           genus_hybrid := if genusHybridFlag scientific_name then w "×" else [],
           species_hybrid := if speciesHybridFlag scientific_name then w "×" else [],
           infraspecies := res.2.1, variety := res.2.2.1,
           subspecies := res.2.2.2.1, form := res.2.2.2.2 }

/-- The last-scan-wins characterisation of the infraspecific scans, as the
spec's data-model section words it: the pair `(taxon_rank, infraspecies)`
after the scans is determined by the latest matching scan in the fixed
order variety → subspecies → form. -/
def infraFold (ingnore_form : Bool) (ts : List (List Char)) (rank : List Char) :
    List Char × List Char :=
  match (if ingnore_form then none else formScan ts) with
  | some e => (w "Form", e)
  | none =>
    match subspScan ts with
    | some e => (w "Subspecies", e)
    | none =>
      match varScan ts with
      | some e => (w "Variety", e)
      | none => (rank, [])

/-- The abbreviation token the variety scan selects (its if/elif order). -/
def varPick (ts : List (List Char)) : Option (List Char) :=
  if w "var." ∈ ts then some (w "var.")
  else if w "var" ∈ ts then some (w "var")
  else none

/-- The abbreviation token the subspecies scan selects. -/
def subspPick (ts : List (List Char)) : Option (List Char) :=
  if w "subsp." ∈ ts then some (w "subsp.")
  else if w "ssp." ∈ ts then some (w "ssp.")
  else if w "sbsp." ∈ ts then some (w "sbsp.")
  else if w "subsp" ∈ ts then some (w "subsp")
  else none

/-- The abbreviation token the form scan selects. -/
def formPick (ts : List (List Char)) : Option (List Char) :=
  if w "f." ∈ ts then some (w "f.") else none

/-! ### Exception-level model

`parseExc` re-traces the source with every fallible Python operation
(`tokens[i]`, `tokens[i][j]`, `list.index`) made explicit in an `Except`
monad, and `try/except IndexError` blocks placed exactly where the source
has them (the two infraspecific `try` blocks catch only `IndexError`). -/

/-- The Python exceptions relevant to this module. -/
inductive PyErr where
  | indexError
  | valueError
  | typeError
  | keyError
deriving DecidableEq, Repr

/-- `tokens[i]` on the token list: raises `IndexError` when out of range. -/
def pyGetTok (ts : List (List Char)) (i : Nat) : Except PyErr (List Char) :=
  match ts.get? i with
  | some t => .ok t
  | none => .error .indexError

/-- `token[i]` on a token: raises `IndexError` when out of range. -/
def pyGetChar (t : List Char) (i : Nat) : Except PyErr Char :=
  match t.get? i with
  | some c => .ok c
  | none => .error .indexError

/-- `tokens.index(a)`: raises `ValueError` when `a` is absent. -/
def pyIndexOf (a : List Char) (ts : List (List Char)) : Except PyErr Nat :=
  if a ∈ ts then .ok (firstIdx a ts) else .error .valueError

/-- `except IndexError:` — recovers from `IndexError` only; every other
exception keeps propagating. -/
def catchIndexErr {α : Type} (x : Except PyErr α) (fallback : α) : Except PyErr α :=
  match x with
  | .error .indexError => .ok fallback
  | y => y

/-- `tokens[tokens.index(a) + 1]` inside a `try` block. -/
def scanAttempt (a : List Char) (ts : List (List Char)) :
    Except PyErr (Option (List Char)) :=
  match pyIndexOf a ts with
  | .error e => .error e
  | .ok i =>
    match pyGetTok ts (i + 1) with
    | .error e => .error e
    | .ok t => .ok (some t)

/-- Source lines 106-114 with explicit exceptions. -/
def varScanExc (ts : List (List Char)) : Except PyErr (Option (List Char)) :=
  catchIndexErr
    (if w "var." ∈ ts then scanAttempt (w "var.") ts
     else if w "var" ∈ ts then scanAttempt (w "var") ts
     else .ok none)
    none

/-- Source lines 117-131 with explicit exceptions. -/
def subspScanExc (ts : List (List Char)) : Except PyErr (Option (List Char)) :=
  catchIndexErr
    (if w "subsp." ∈ ts then scanAttempt (w "subsp.") ts
     else if w "ssp." ∈ ts then scanAttempt (w "ssp.") ts
     else if w "sbsp." ∈ ts then scanAttempt (w "sbsp.") ts
     else if w "subsp" ∈ ts then scanAttempt (w "subsp") ts
     else .ok none)
    none

/-- Source lines 137-142 with explicit exceptions. -/
def formScanExc (ts : List (List Char)) : Except PyErr (Option (List Char)) :=
  catchIndexErr
    (if w "f." ∈ ts then scanAttempt (w "f.") ts else .ok none)
    none

/-- Source lines 94-153 with explicit exceptions, from the species-hybrid
stage on, given the tokens `ts2` left by the genus-rank stage. -/
def parseExcRest (ingnore_form : Bool) (gh : Bool) (genus rank0 : List Char)
    (ts2 : List (List Char)) : Except PyErr (Option ParsedName) :=
  let sh := ts2.any (fun t => t.contains '×')
  let ts3 := stripTokens ts2
  let specStep : Except PyErr (List Char × List Char) :=
    if ts3.length > 1 then
      match pyGetTok ts3 1 with
      | .error e => .error e
      | .ok t1 => .ok (t1, w "Species")
    else .ok ([], rank0)
  match specStep with
  | .error e => .error e
  | .ok sr =>
    match varScanExc ts3 with
    | .error e => .error e
    | .ok vres =>
      match subspScanExc ts3 with
      | .error e => .error e
      | .ok sres =>
        match (if ingnore_form then Except.ok none else formScanExc ts3) with
        | .error e => .error e
        | .ok fres =>
          let s1 : List Char × List Char × List Char :=
            match vres with
            | some e => (w "Variety", e, e)
            | none => (sr.2, [], [])
          let s2 : List Char × List Char × List Char :=
            match sres with
            | some e => (w "Subspecies", e, e)
            | none => (s1.1, s1.2.1, [])
          let s3 : List Char × List Char × List Char :=
            match fres with
            | some e => (w "Form", e, e)
            | none => (s2.1, s2.2.1, [])
          .ok (some { taxon_rank := s3.1, genus := genus, species := sr.1,
                      genus_hybrid := if gh then w "×" else [],
                      species_hybrid := if sh then w "×" else [],
                      infraspecies := s3.2.1, variety := s1.2.2,
                      subspecies := s2.2.2, form := s3.2.2 })

/-- The exception-level model of `parse_scientific_name`: the genus-hybrid
test (line 79) and the two-token abbreviation test (line 89) index the
token list with no surrounding `try`, so those accesses may in principle
raise. -/
def parseExc (scientific_name : String) (ingnore_form : Bool) :
    Except PyErr (Option ParsedName) :=
  let ts := tokenize scientific_name
  if ts.length = 0 then .ok none
  else
    match pyGetTok ts 0 with
    | .error e => .error e
    | .ok t0 =>
      match pyGetChar t0 0 with
      | .error e => .error e
      | .ok c0 =>
        let gh := hybridChars.contains c0 && t0.length != 1
        let t0' := if gh then t0.drop 1 else t0
        let ts1 := t0' :: ts.tail
        if ts1.length = 1 then parseExcRest ingnore_form gh t0' (w "Genus") ts1
        else
          match pyGetTok ts1 1 with
          | .error e => .error e
          | .ok t1 =>
            if ts1.length = 2 ∧ t1 ∈ abbreviation_ignore then
              parseExcRest ingnore_form gh t0' (w "Genus") (ts1.eraseIdx 1)
            else parseExcRest ingnore_form gh t0' [] ts1

/-! ### Row-integration wrapper -/

/-- A dataframe row, modelled as an association list of column values. -/
abbrev Row := List (String × List Char)

/-- `row[col]` read access. -/
def rowGet (row : Row) (col : String) : Option (List Char) :=
  (row.find? (fun p => p.1 == col)).map (fun p => p.2)

/-- `row[col] = v`: overwrite an existing column or append a new one. -/
def rowSet (row : Row) (col : String) (v : List Char) : Row :=
  if row.any (fun p => p.1 == col) then
    row.map (fun p => if p.1 == col then (p.1, v) else p)
  else row ++ [(col, v)]

/-- Writing every parsed field into the row (source lines 33-34), in the
dictionary's insertion order. -/
def writeParsed (row : Row) (p : ParsedName) : Row :=
  rowSet (rowSet (rowSet (rowSet (rowSet (rowSet (rowSet (rowSet (rowSet row
    "taxon_rank" p.taxon_rank) "genus" p.genus) "species" p.species)
    "genus_hybrid" p.genus_hybrid) "species_hybrid" p.species_hybrid)
    "infraspecies" p.infraspecies) "variety" p.variety)
    "subspecies" p.subspecies) "form" p.form

/-- Model of `generate_scientific_columns` (source lines 21-35).  Iterating
`for key in parsed_scientific_name` over a `None` result raises `TypeError`
in Python; a missing column raises `KeyError` before that. -/
def generate_scientific_columns (row : Row) (scientific_name_col : String)
    (ignore_form : Bool) : Except PyErr Row :=
  match rowGet row scientific_name_col with
  | none => .error .keyError
  | some v =>
    match parse (String.mk v) ignore_form with
    | none => .error .typeError
    | some p => .ok (writeParsed row p)

/-- The genus, species and (when non-empty) infraspecies fields joined with
single spaces, as in the spec's idempotence property. -/
def rejoin (r : ParsedName) : String :=
  String.mk (r.genus ++ (' ' :: (r.species ++
    (if r.infraspecies = [] then [] else ' ' :: r.infraspecies))))

/-! ### Tokenizer lemmas -/

/-- A word: a nonempty token all of whose characters are non-whitespace. -/
def Wordlike (t : List Char) : Prop := t ≠ [] ∧ ∀ c ∈ t, c.isWhitespace = false

theorem splitWsAux_nilEq (cur : List Char) :
    splitWsAux cur [] = if cur = [] then [] else [cur.reverse] := rfl

theorem splitWsAux_consEq (cur : List Char) (c : Char) (cs : List Char) :
    splitWsAux cur (c :: cs) =
      if c.isWhitespace then
        if cur = [] then splitWsAux [] cs else cur.reverse :: splitWsAux [] cs
      else splitWsAux (c :: cur) cs := rfl

theorem splitWsAux_wordlike : ∀ (l cur : List Char),
    (∀ c ∈ cur, c.isWhitespace = false) →
    ∀ t ∈ splitWsAux cur l, Wordlike t := by
  intro l
  induction l with
  | nil =>
    intro cur hcur t ht
    rw [splitWsAux_nilEq] at ht
    split at ht
    · simp at ht
    · rename_i h
      simp only [List.mem_singleton] at ht
      subst ht
      refine ⟨by simpa using h, fun c hc => hcur c (by simpa using hc)⟩
  | cons c cs ih =>
    intro cur hcur t ht
    rw [splitWsAux_consEq] at ht
    split at ht
    · split at ht
      · exact ih [] (by simp) t ht
      · rename_i hws hcur'
        rcases List.mem_cons.mp ht with h | h
        · subst h
          refine ⟨by simpa using hcur', fun d hd => hcur d (by simpa using hd)⟩
        · exact ih [] (by simp) t h
    · rename_i hws
      refine ih (c :: cur) ?_ t ht
      intro d hd
      rcases List.mem_cons.mp hd with h | h
      · subst h; simpa using hws
      · exact hcur d h

theorem splitWsAux_nil_iff : ∀ (l cur : List Char),
    splitWsAux cur l = [] ↔ cur = [] ∧ ∀ c ∈ l, c.isWhitespace = true := by
  intro l
  induction l with
  | nil =>
    intro cur
    rw [splitWsAux_nilEq]
    split <;> rename_i h <;> simp [h]
  | cons c cs ih =>
    intro cur
    rw [splitWsAux_consEq]
    split
    · rename_i hws
      split
      · rename_i hcur
        rw [ih]
        simp [hcur, hws]
      · rename_i hcur
        simp [hcur, hws]
    · rename_i hws
      rw [ih]
      simp only [List.mem_cons]
      constructor
      · rintro ⟨h, -⟩; exact absurd h (by simp)
      · rintro ⟨-, hall⟩
        exact absurd (hall c (Or.inl rfl)) (by simpa using hws)

theorem splitWs_nil_iff (l : List Char) :
    splitWs l = [] ↔ ∀ c ∈ l, c.isWhitespace = true := by
  unfold splitWs
  rw [splitWsAux_nil_iff]
  simp

theorem splitWsAux_word : ∀ (t l cur : List Char),
    (∀ c ∈ t, c.isWhitespace = false) →
    splitWsAux cur (t ++ l) = splitWsAux (t.reverse ++ cur) l := by
  intro t
  induction t with
  | nil => intro l cur _; simp
  | cons c t ih =>
    intro l cur h
    have hc : c.isWhitespace = false := h c (by simp)
    simp only [List.cons_append]
    rw [splitWsAux_consEq, if_neg (by simp [hc])]
    rw [ih l (c :: cur) (fun d hd => h d (by simp [hd]))]
    congr 1
    simp

theorem splitWs_word_sep (t l : List Char) (h : Wordlike t) :
    splitWs (t ++ ' ' :: l) = t :: splitWs l := by
  unfold splitWs
  rw [splitWsAux_word t (' ' :: l) [] h.2]
  rw [splitWsAux_consEq, if_pos (by decide), if_neg (by simpa using h.1)]
  simp

theorem splitWs_word (t : List Char) (h : Wordlike t) : splitWs t = [t] := by
  unfold splitWs
  have h2 := splitWsAux_word t [] [] h.2
  simp only [List.append_nil] at h2
  rw [h2, splitWsAux_nilEq, if_neg (by simpa using h.1)]
  simp

/-! ### Replacement lemmas -/

/-- The pattern `pat` occurs somewhere inside `l`. -/
def OccursIn (pat l : List Char) : Prop := ∃ u v, l = u ++ pat ++ v

theorem occursIn_cons {pat l : List Char} {x : Char} (h : OccursIn pat l) :
    OccursIn pat (x :: l) := by
  obtain ⟨u, v, rfl⟩ := h
  exact ⟨x :: u, v, by simp⟩

theorem occursIn_mem_mid {a b c : Char} {l : List Char}
    (h : OccursIn [a, b, c] l) : b ∈ l := by
  obtain ⟨u, v, rfl⟩ := h
  simp

theorem repl3_noop (a b c : Char) (r : List Char) :
    ∀ l, ¬ OccursIn [a, b, c] l → repl3 a b c r l = l
  | [] => fun _ => rfl
  | [x] => fun _ => rfl
  | [x, y] => fun _ => rfl
  | x :: y :: z :: rest => fun h => by
    rw [repl3]
    rw [if_neg ?_]
    · have : ¬ OccursIn [a, b, c] (y :: z :: rest) := fun hin => h (occursIn_cons hin)
      rw [repl3_noop a b c r (y :: z :: rest) this]
    · rintro ⟨rfl, rfl, rfl⟩
      exact h ⟨[], rest, by simp⟩

theorem repl3_allws_rev {a b c : Char} {r : List Char}
    (hr : ∃ ch ∈ r, ch.isWhitespace = false) :
    ∀ l, (∀ ch ∈ repl3 a b c r l, ch.isWhitespace = true) →
      ∀ ch ∈ l, ch.isWhitespace = true
  | [] => by simp
  | [x] => by intro h ch hch; simp only [repl3] at h; simpa using h ch (by simpa using hch)
  | [x, y] => by intro h ch hch; simp only [repl3] at h; exact h ch (by simpa using hch)
  | x :: y :: z :: rest => by
    intro h ch hch
    rw [repl3] at h
    split at h
    · obtain ⟨d, hd, hdws⟩ := hr
      exact absurd (h d (by simp [hd])) (by simp [hdws])
    · rcases List.mem_cons.mp hch with h1 | h1
      · subst h1; exact h ch (by simp)
      · exact repl3_allws_rev hr (y :: z :: rest)
          (fun d hd => h d (List.mem_cons_of_mem x hd)) ch h1

/-- In an all-whitespace list the middle pattern character (non-whitespace)
never occurs, so the replacement is the identity. -/
theorem repl3_allws {a b c : Char} {r : List Char} (hb : b.isWhitespace = false)
    (l : List Char) (h : ∀ ch ∈ l, ch.isWhitespace = true) :
    repl3 a b c r l = l := by
  refine repl3_noop a b c r l (fun hocc => ?_)
  have := h b (occursIn_mem_mid hocc)
  rw [this] at hb
  exact absurd hb (by simp)

theorem tokenize_wordlike {s : String} : ∀ t ∈ tokenize s, Wordlike t := by
  intro t ht
  exact splitWsAux_wordlike (cleanName s.data) [] (by simp) t ht

theorem tokenize_nil_iff (s : String) :
    tokenize s = [] ↔ ∀ c ∈ s.data, c.isWhitespace = true := by
  unfold tokenize
  rw [splitWs_nil_iff]
  constructor
  · intro h
    have h1 := repl3_allws_rev (a := ' ') (b := 'X') (c := ' ')
      ⟨'×', by simp [w], by decide⟩ (repl3 ' ' 'x' ' ' (w " × ") s.data) h
    exact repl3_allws_rev (a := ' ') (b := 'x') (c := ' ')
      ⟨'×', by simp [w], by decide⟩ s.data h1
  · intro h
    unfold cleanName
    rw [repl3_allws (by decide) s.data h, repl3_allws (by decide) s.data h]
    exact h

/-! ### Basic equations for `parse` -/

theorem parse_eq_none_iff (s : String) (b : Bool) :
    parse s b = none ↔ tokenize s = [] := by
  unfold parse
  cases h : tokenize s <;> simp

theorem parse_some_eq {s : String} (b : Bool) (h : tokenize s ≠ []) :
    parse s b = some
      { taxon_rank := (infraStage b (tokensAfterHybrid s) (preInfraRank s)).1,
        genus := genusOf s,
        species := speciesOf s,
        genus_hybrid := if genusHybridFlag s then w "×" else [],
        species_hybrid := if speciesHybridFlag s then w "×" else [],
        infraspecies := (infraStage b (tokensAfterHybrid s) (preInfraRank s)).2.1,
        variety := (infraStage b (tokensAfterHybrid s) (preInfraRank s)).2.2.1,
        subspecies := (infraStage b (tokensAfterHybrid s) (preInfraRank s)).2.2.2.1,
        form := (infraStage b (tokensAfterHybrid s) (preInfraRank s)).2.2.2.2 } := by
  unfold parse
  cases hts : tokenize s with
  | nil => exact absurd hts h
  | cons t0 rest => rfl

/-! ### Word-shape invariants of the working token lists -/

theorem genusHybridCond_iff {t : List Char} :
    genusHybridCond t = true ↔ t.head? = some '×' ∧ t.length ≠ 1 := by
  cases t with
  | nil => simp [genusHybridCond]
  | cons c cs =>
    simp only [genusHybridCond, Bool.and_eq_true, List.head?_cons,
      Option.some.injEq, bne_iff_ne, ne_eq]
    constructor
    · rintro ⟨h1, h2⟩
      refine ⟨?_, h2⟩
      have : c ∈ hybridChars := by simpa using h1
      simpa [hybridChars] using this
    · rintro ⟨h1, h2⟩
      subst h1
      exact ⟨by simp [hybridChars], h2⟩

theorem wordlike_drop1 {t : List Char} (h : Wordlike t) (hlen : t.length ≠ 1) :
    Wordlike (t.drop 1) := by
  cases t with
  | nil => exact absurd rfl h.1
  | cons c cs =>
    cases cs with
    | nil => simp at hlen
    | cons d ds =>
      refine ⟨by simp, fun x hx => h.2 x ?_⟩
      simp only [List.drop_one, List.tail_cons] at hx
      exact List.mem_cons_of_mem c hx

theorem tokensAfterGenus_wordlike {s : String} :
    ∀ t ∈ tokensAfterGenus s, Wordlike t := by
  intro t ht
  unfold tokensAfterGenus at ht
  cases hts : tokenize s with
  | nil => rw [hts] at ht; simp at ht
  | cons t0 rest =>
    rw [hts] at ht
    have hw0 : Wordlike t0 := tokenize_wordlike t0 (by rw [hts]; exact List.mem_cons_self _ _)
    rcases List.mem_cons.mp ht with h | h
    · subst h
      by_cases hc : genusHybridCond t0 = true
      · rw [if_pos hc]
        exact wordlike_drop1 hw0 (genusHybridCond_iff.mp hc).2
      · rw [if_neg hc]
        exact hw0
    · exact tokenize_wordlike t (by rw [hts]; exact List.mem_cons_of_mem _ h)

theorem tokensAfterRank_wordlike {s : String} :
    ∀ t ∈ tokensAfterRank s, Wordlike t := by
  intro t ht
  unfold tokensAfterRank rankGenusStage at ht
  split at ht
  · exact tokensAfterGenus_wordlike t ht
  · split at ht
    · exact tokensAfterGenus_wordlike t (List.mem_of_mem_eraseIdx ht)
    · exact tokensAfterGenus_wordlike t ht

theorem stripTokens_wordlike {ts : List (List Char)}
    (h : ∀ t ∈ ts, Wordlike t) : ∀ t ∈ stripTokens ts, Wordlike t := by
  intro t ht
  unfold stripTokens at ht
  split at ht
  · rcases List.mem_filter.mp ht with ⟨hmem, hne⟩
    rcases List.mem_map.mp hmem with ⟨orig, horig, rfl⟩
    refine ⟨by simpa [List.isEmpty_iff] using hne, ?_⟩
    intro c hc
    exact (h orig horig).2 c (List.mem_of_mem_filter hc)
  · exact h t ht

theorem tokensAfterHybrid_wordlike {s : String} :
    ∀ t ∈ tokensAfterHybrid s, Wordlike t :=
  stripTokens_wordlike (fun t ht => tokensAfterRank_wordlike t ht)

theorem genusOf_wordlike {s : String} (h : tokenize s ≠ []) :
    Wordlike (genusOf s) := by
  unfold genusOf
  cases hg : tokensAfterGenus s with
  | nil =>
    unfold tokensAfterGenus at hg
    cases hts : tokenize s with
    | nil => exact absurd hts h
    | cons t0 rest => rw [hts] at hg; simp at hg
  | cons t0 rest =>
    exact tokensAfterGenus_wordlike t0 (by rw [hg]; exact List.mem_cons_self _ _)

theorem speciesOf_wordlike (s : String) :
    speciesOf s = [] ∨ (speciesOf s ∈ tokensAfterHybrid s ∧ Wordlike (speciesOf s)) := by
  unfold speciesOf
  split
  · rename_i hlen
    right
    have h1 : 1 < (tokensAfterHybrid s).length := hlen
    have hmem : (tokensAfterHybrid s).getD 1 [] ∈ tokensAfterHybrid s := by
      rw [List.getD_eq_getElem?_getD, List.getElem?_eq_getElem h1]
      exact List.getElem_mem h1
    exact ⟨hmem, tokensAfterHybrid_wordlike _ hmem⟩
  · left; rfl

/-! ### Scan lemmas -/

theorem scanEpithet_mem {a e : List Char} {ts : List (List Char)}
    (h : scanEpithet a ts = some e) : e ∈ ts :=
  List.get?_mem h

theorem varScan_mem {ts : List (List Char)} {e : List Char}
    (h : varScan ts = some e) : e ∈ ts := by
  unfold varScan at h
  split at h
  · exact scanEpithet_mem h
  · split at h
    · exact scanEpithet_mem h
    · simp at h

theorem subspScan_mem {ts : List (List Char)} {e : List Char}
    (h : subspScan ts = some e) : e ∈ ts := by
  unfold subspScan at h
  split at h
  · exact scanEpithet_mem h
  · split at h
    · exact scanEpithet_mem h
    · split at h
      · exact scanEpithet_mem h
      · split at h
        · exact scanEpithet_mem h
        · simp at h

theorem formScan_mem {ts : List (List Char)} {e : List Char}
    (h : formScan ts = some e) : e ∈ ts := by
  unfold formScan at h
  split at h
  · exact scanEpithet_mem h
  · simp at h

theorem varScan_isSome_pick {ts : List (List Char)} {e : List Char}
    (h : varScan ts = some e) : varPick ts ≠ none := by
  unfold varScan at h
  unfold varPick
  split at h <;> rename_i h1
  · simp [h1]
  · split at h <;> rename_i h2
    · simp [h1, h2]
    · simp at h

theorem subspScan_isSome_pick {ts : List (List Char)} {e : List Char}
    (h : subspScan ts = some e) : subspPick ts ≠ none := by
  unfold subspScan at h
  unfold subspPick
  split at h <;> rename_i h1
  · simp [h1]
  · split at h <;> rename_i h2
    · simp [h1, h2]
    · split at h <;> rename_i h3
      · simp [h1, h2, h3]
      · split at h <;> rename_i h4
        · simp [h1, h2, h3, h4]
        · simp at h

theorem formScan_isSome_pick {ts : List (List Char)} {e : List Char}
    (h : formScan ts = some e) : formPick ts ≠ none := by
  unfold formScan at h
  unfold formPick
  split at h <;> rename_i h1
  · simp [h1]
  · simp at h

/-! ### Characterisations of `infraStage` -/

theorem infraStage_variety (b : Bool) (ts : List (List Char)) (r : List Char) :
    (infraStage b ts r).2.2.1 = (varScan ts).getD [] := by
  cases hv : varScan ts <;> cases hs : subspScan ts <;> cases hf : formScan ts <;>
    cases b <;> simp [infraStage, hv, hs, hf]

theorem infraStage_subspecies (b : Bool) (ts : List (List Char)) (r : List Char) :
    (infraStage b ts r).2.2.2.1 = (subspScan ts).getD [] := by
  cases hv : varScan ts <;> cases hs : subspScan ts <;> cases hf : formScan ts <;>
    cases b <;> simp [infraStage, hv, hs, hf]

theorem infraStage_form (b : Bool) (ts : List (List Char)) (r : List Char) :
    (infraStage b ts r).2.2.2.2 = if b then [] else (formScan ts).getD [] := by
  cases hv : varScan ts <;> cases hs : subspScan ts <;> cases hf : formScan ts <;>
    cases b <;> simp [infraStage, hv, hs, hf]

theorem infraStage_rank_inf (b : Bool) (ts : List (List Char)) (r : List Char) :
    ((infraStage b ts r).1, (infraStage b ts r).2.1) = infraFold b ts r := by
  cases hv : varScan ts <;> cases hs : subspScan ts <;> cases hf : formScan ts <;>
    cases b <;> simp [infraStage, infraFold, hv, hs, hf]

theorem parse_ne_tokenize {s : String} {b : Bool} {r : ParsedName}
    (hr : parse s b = some r) : tokenize s ≠ [] := by
  intro hh
  rw [(parse_eq_none_iff s b).mpr hh] at hr
  exact Option.noConfusion hr

/-- Every field of a returned record, expressed through the stage functions. -/
theorem parse_fields {s : String} {b : Bool} {r : ParsedName}
    (hr : parse s b = some r) :
    r.taxon_rank = (infraFold b (tokensAfterHybrid s) (preInfraRank s)).1 ∧
    r.genus = genusOf s ∧
    r.species = speciesOf s ∧
    r.genus_hybrid = (if genusHybridFlag s then w "×" else []) ∧
    r.species_hybrid = (if speciesHybridFlag s then w "×" else []) ∧
    r.infraspecies = (infraFold b (tokensAfterHybrid s) (preInfraRank s)).2 ∧
    r.variety = (varScan (tokensAfterHybrid s)).getD [] ∧
    r.subspecies = (subspScan (tokensAfterHybrid s)).getD [] ∧
    r.form = (if b then [] else (formScan (tokensAfterHybrid s)).getD []) := by
  have h : tokenize s ≠ [] := parse_ne_tokenize hr
  rw [parse_some_eq b h] at hr
  obtain rfl := Option.some.inj hr
  refine ⟨?_, rfl, rfl, rfl, rfl, ?_, ?_, ?_, ?_⟩
  · exact congrArg Prod.fst (infraStage_rank_inf b _ _)
  · exact congrArg Prod.snd (infraStage_rank_inf b _ _)
  · exact infraStage_variety b _ _
  · exact infraStage_subspecies b _ _
  · exact infraStage_form b _ _

theorem infraFold_rank_cases (b : Bool) (ts : List (List Char)) (r0 : List Char) :
    (infraFold b ts r0).1 = r0 ∨ (infraFold b ts r0).1 = w "Variety" ∨
    (infraFold b ts r0).1 = w "Subspecies" ∨ (infraFold b ts r0).1 = w "Form" := by
  unfold infraFold
  cases (if b then none else formScan ts) <;> cases subspScan ts <;>
    cases varScan ts <;> simp

theorem tokensAfterGenus_eq {s : String} {t0 : List Char} {rest : List (List Char)}
    (hts : tokenize s = t0 :: rest) :
    tokensAfterGenus s = (if genusHybridCond t0 then t0.drop 1 else t0) :: rest := by
  unfold tokensAfterGenus
  rw [hts]

theorem genusOf_eq {s : String} {t0 : List Char} {rest : List (List Char)}
    (hts : tokenize s = t0 :: rest) :
    genusOf s = if genusHybridCond t0 then t0.drop 1 else t0 := by
  unfold genusOf
  rw [tokensAfterGenus_eq hts]

theorem genusHybridFlag_eq {s : String} {t0 : List Char} {rest : List (List Char)}
    (hts : tokenize s = t0 :: rest) :
    genusHybridFlag s = genusHybridCond t0 := by
  unfold genusHybridFlag
  rw [hts]

/-! ### The claims -/

/-- C3: `parse` returns null exactly when the input splits into zero
whitespace-delimited tokens (empty or whitespace-only input); on any input
with at least one token it returns a record whose genus is non-empty. -/
theorem c3_null_iff_no_tokens (s : String) (b : Bool) :
    (parse s b = none ↔ ∀ c ∈ s.data, c.isWhitespace = true) ∧
    ∀ r, parse s b = some r → r.genus ≠ [] := by
  constructor
  · rw [parse_eq_none_iff, tokenize_nil_iff]
  · intro r hr
    have h : tokenize s ≠ [] := parse_ne_tokenize hr
    rw [(parse_fields hr).2.1]
    exact (genusOf_wordlike h).1

theorem c3_null_iff_no_tokens_witness : parse "   " false = none :=
  (c3_null_iff_no_tokens "   " false).1.mpr (by decide)

/-- C7: in every returned record a non-empty species forces the rank to be
Species, Variety, Subspecies or Form; when the rank is Genus the species
is empty. -/
theorem c7_species_implies_rank (s : String) (b : Bool) (r : ParsedName)
    (hr : parse s b = some r) :
    (r.species ≠ [] → r.taxon_rank = w "Species" ∨ r.taxon_rank = w "Variety" ∨
      r.taxon_rank = w "Subspecies" ∨ r.taxon_rank = w "Form") ∧
    (r.taxon_rank = w "Genus" → r.species = []) := by
  obtain ⟨hrk, -, hsp, -⟩ := parse_fields hr
  constructor
  · intro hne
    have hlen : (tokensAfterHybrid s).length > 1 := by
      by_contra hl
      rw [hsp] at hne
      unfold speciesOf at hne
      rw [if_neg hl] at hne
      exact hne rfl
    have hr1 : preInfraRank s = w "Species" := by
      unfold preInfraRank
      rw [if_pos hlen]
    rcases infraFold_rank_cases b (tokensAfterHybrid s) (preInfraRank s) with
      h | h | h | h
    · left; rw [hrk, h, hr1]
    · right; left; rw [hrk, h]
    · right; right; left; rw [hrk, h]
    · right; right; right; rw [hrk, h]
  · intro hg
    rw [hrk] at hg
    have hfold : preInfraRank s = w "Genus" := by
      rcases infraFold_rank_cases b (tokensAfterHybrid s) (preInfraRank s) with h | h | h | h
      · rw [← h, hg]
      · rw [h] at hg; exact absurd hg (by decide)
      · rw [h] at hg; exact absurd hg (by decide)
      · rw [h] at hg; exact absurd hg (by decide)
    have hlen : ¬ (tokensAfterHybrid s).length > 1 := by
      intro hl
      unfold preInfraRank at hfold
      rw [if_pos hl] at hfold
      exact absurd hfold (by decide)
    rw [hsp]
    unfold speciesOf
    rw [if_neg hlen]

theorem c7_species_implies_rank_witness :
    w "Species" = w "Species" ∨ w "Species" = w "Variety" ∨
    w "Species" = w "Subspecies" ∨ w "Species" = w "Form" :=
  (c7_species_implies_rank "Rosa canina" false
    { taxon_rank := w "Species", genus := w "Rosa", species := w "canina",
      genus_hybrid := [], species_hybrid := [], infraspecies := [],
      variety := [], subspecies := [], form := [] } (by decide)).1 (by decide)

/-- C8: the genus-hybrid marker is set exactly when the first token of the
normalized input starts with the hybrid sign and has length greater than
one; the sign is then stripped off the genus, and a standalone one-character
hybrid first token sets nothing and is not stripped. -/
theorem c8_genus_hybrid (s : String) (b : Bool) (r : ParsedName)
    (hr : parse s b = some r) :
    (r.genus_hybrid ≠ [] ↔ ∃ t0 rest, tokenize s = t0 :: rest ∧
        t0.head? = some '×' ∧ 1 < t0.length) ∧
    (∀ t0 rest, tokenize s = t0 :: rest → t0.head? = some '×' → 1 < t0.length →
        r.genus = t0.drop 1) ∧
    (∀ rest, tokenize s = ['×'] :: rest → r.genus_hybrid = [] ∧ r.genus = ['×']) := by
  obtain ⟨-, hg, -, hgh, -⟩ := parse_fields hr
  have h : tokenize s ≠ [] := parse_ne_tokenize hr
  refine ⟨⟨?_, ?_⟩, ?_, ?_⟩
  · intro hne
    rw [hgh] at hne
    have hf : genusHybridFlag s = true := by
      by_contra hf
      rw [if_neg hf] at hne
      exact hne rfl
    cases hts : tokenize s with
    | nil => exact absurd hts h
    | cons t0 rest =>
      rw [genusHybridFlag_eq hts] at hf
      obtain ⟨hhead, hlen⟩ := genusHybridCond_iff.mp hf
      have hw0 : Wordlike t0 :=
        tokenize_wordlike t0 (by rw [hts]; exact List.mem_cons_self _ _)
      have hpos : 0 < t0.length := List.length_pos.mpr hw0.1
      exact ⟨t0, rest, rfl, hhead, by omega⟩
  · rintro ⟨t0, rest, hts, hhead, hlen⟩
    rw [hgh]
    have hf : genusHybridFlag s = true := by
      rw [genusHybridFlag_eq hts]
      exact genusHybridCond_iff.mpr ⟨hhead, by omega⟩
    rw [if_pos hf]
    decide
  · intro t0 rest hts hhead hlen
    rw [hg, genusOf_eq hts,
      if_pos (genusHybridCond_iff.mpr ⟨hhead, by omega⟩)]
  · intro rest hts
    have hf : genusHybridFlag s = false := by
      rw [genusHybridFlag_eq hts]
      decide
    refine ⟨?_, ?_⟩
    · rw [hgh, if_neg (by simp [hf])]
    · rw [hg, genusOf_eq hts, if_neg (by decide)]

theorem c8_genus_hybrid_witness :
    ({ taxon_rank := w "Species", genus := w "Rosa", species := w "damascena",
       genus_hybrid := w "×", species_hybrid := [], infraspecies := [],
       variety := [], subspecies := [], form := [] } : ParsedName).genus_hybrid ≠ [] :=
  (c8_genus_hybrid "×Rosa damascena" false
    { taxon_rank := w "Species", genus := w "Rosa", species := w "damascena",
      genus_hybrid := w "×", species_hybrid := [], infraspecies := [],
      variety := [], subspecies := [], form := [] } (by decide)).1.mpr
    ⟨w "×Rosa", [w "damascena"], by decide, by decide, by decide⟩

/-- C4 counterexample: in `Ro×sa canina` the hybrid sign sits only inside
the genus token, yet species_hybrid is set — the species-hybrid test scans
every working token, the genus token included. -/
theorem c4_counterexample :
    (parse "Ro×sa canina" false).map (fun r => (r.genus, r.species_hybrid)) =
      some (w "Ro×sa", w "×") ∧
    tokenize "Ro×sa canina" = [w "Ro×sa", w "canina"] ∧
    ('×' ∉ w "canina") ∧ w "×" ≠ [] := by decide

/-- C4 amended: species_hybrid is set if and only if some token of the
working sequence at the species-hybrid stage (the genus token included,
after genus-hybrid prefix stripping) contains an embedded hybrid sign. -/
theorem c4_species_hybrid_amended (s : String) (b : Bool) (r : ParsedName)
    (hr : parse s b = some r) :
    r.species_hybrid ≠ [] ↔ ∃ t ∈ tokensAfterRank s, '×' ∈ t := by
  obtain ⟨-, -, -, -, hsh, -⟩ := parse_fields hr
  rw [hsh]
  constructor
  · intro hne
    have hf : speciesHybridFlag s = true := by
      by_contra hf
      rw [if_neg hf] at hne
      exact hne rfl
    unfold speciesHybridFlag at hf
    obtain ⟨t, ht, hc⟩ := List.any_eq_true.mp hf
    exact ⟨t, ht, by simpa using hc⟩
  · rintro ⟨t, ht, hc⟩
    have hf : speciesHybridFlag s = true := by
      unfold speciesHybridFlag
      exact List.any_eq_true.mpr ⟨t, ht, by simpa using hc⟩
    rw [if_pos hf]
    decide

theorem c4_species_hybrid_amended_witness :
    ({ taxon_rank := w "Species", genus := w "Rosa", species := w "canina",
       genus_hybrid := [], species_hybrid := w "×", infraspecies := [],
       variety := [], subspecies := [], form := [] } : ParsedName).species_hybrid ≠ [] :=
  (c4_species_hybrid_amended "Rosa × canina" false
    { taxon_rank := w "Species", genus := w "Rosa", species := w "canina",
      genus_hybrid := [], species_hybrid := w "×", infraspecies := [],
      variety := [], subspecies := [], form := [] } (by decide)).mpr
    ⟨w "×", by decide, by decide⟩

/-- C1 counterexample: an input carrying both a variety and a subspecies
abbreviation gets both `variety` and `subspecies` set in the same record,
so the three epithet fields are not mutually exclusive. -/
theorem c1_counterexample :
    (parse "Rosa canina var. alba subsp. beta" false).map
        (fun r => (r.variety, r.subspecies)) = some (w "alba", w "beta") ∧
    w "alba" ≠ [] ∧ w "beta" ≠ [] := by decide

/-- C1 amended: at most one of `variety`, `subspecies`, `form` is non-empty
provided the working tokens carry recognized abbreviations of at most one
infraspecific rank; when abbreviations of several ranks are present each
corresponding field is set independently, and only `infraspecies` and the
rank follow the last-scan-wins rule. -/
theorem c1_mutual_exclusion_amended (s : String) (b : Bool) (r : ParsedName)
    (hr : parse s b = some r)
    (h1 : ¬(varPick (tokensAfterHybrid s) ≠ none ∧ subspPick (tokensAfterHybrid s) ≠ none))
    (h2 : ¬(varPick (tokensAfterHybrid s) ≠ none ∧ b = false ∧
        formPick (tokensAfterHybrid s) ≠ none))
    (h3 : ¬(subspPick (tokensAfterHybrid s) ≠ none ∧ b = false ∧
        formPick (tokensAfterHybrid s) ≠ none)) :
    (r.variety = [] ∨ r.subspecies = []) ∧ (r.variety = [] ∨ r.form = []) ∧
    (r.subspecies = [] ∨ r.form = []) := by
  obtain ⟨-, -, -, -, -, -, hv, hsu, hfo⟩ := parse_fields hr
  refine ⟨?_, ?_, ?_⟩
  · cases hvv : varScan (tokensAfterHybrid s) with
    | none => left; rw [hv, hvv]; rfl
    | some e1 =>
      cases hss : subspScan (tokensAfterHybrid s) with
      | none => right; rw [hsu, hss]; rfl
      | some e2 =>
        exact absurd ⟨varScan_isSome_pick hvv, subspScan_isSome_pick hss⟩ h1
  · cases hvv : varScan (tokensAfterHybrid s) with
    | none => left; rw [hv, hvv]; rfl
    | some e1 =>
      cases hb : b with
      | true => right; rw [hfo, hb]; rfl
      | false =>
        cases hff : formScan (tokensAfterHybrid s) with
        | none => right; rw [hfo, hb, hff]; rfl
        | some e3 =>
          exact absurd ⟨varScan_isSome_pick hvv, hb, formScan_isSome_pick hff⟩ h2
  · cases hss : subspScan (tokensAfterHybrid s) with
    | none => left; rw [hsu, hss]; rfl
    | some e2 =>
      cases hb : b with
      | true => right; rw [hfo, hb]; rfl
      | false =>
        cases hff : formScan (tokensAfterHybrid s) with
        | none => right; rw [hfo, hb, hff]; rfl
        | some e3 =>
          exact absurd ⟨subspScan_isSome_pick hss, hb, formScan_isSome_pick hff⟩ h3

theorem c1_mutual_exclusion_amended_witness :
    (w "dumetorum" = ([] : List Char) ∨ ([] : List Char) = []) ∧
    (w "dumetorum" = ([] : List Char) ∨ ([] : List Char) = []) ∧
    (([] : List Char) = [] ∨ ([] : List Char) = []) :=
  c1_mutual_exclusion_amended "Rosa canina var. dumetorum" false
    { taxon_rank := w "Variety", genus := w "Rosa", species := w "canina",
      genus_hybrid := [], species_hybrid := [], infraspecies := w "dumetorum",
      variety := w "dumetorum", subspecies := [], form := [] }
    (by decide) (by decide) (by decide) (by decide)

/-- C5: the infraspecific scans run in the fixed order variety →
subspecies → form (form only when the flag is off); the returned
`infraspecies` and rank come from the latest scan that matched with a
following token (`infraFold`), `infraspecies` is empty when no scan
matched, and when a subspecies marker with epithet is present and the form
scan found nothing, both come from the subspecies scan. -/
theorem c5_scan_order (s : String) (b : Bool) (r : ParsedName)
    (hr : parse s b = some r) :
    r.taxon_rank = (infraFold b (tokensAfterHybrid s) (preInfraRank s)).1 ∧
    r.infraspecies = (infraFold b (tokensAfterHybrid s) (preInfraRank s)).2 ∧
    ((if b then none else formScan (tokensAfterHybrid s)) = none →
      ∀ e, subspScan (tokensAfterHybrid s) = some e →
        r.infraspecies = e ∧ r.taxon_rank = w "Subspecies") ∧
    (varScan (tokensAfterHybrid s) = none → subspScan (tokensAfterHybrid s) = none →
      (if b then none else formScan (tokensAfterHybrid s)) = none →
      r.infraspecies = []) := by
  obtain ⟨hrk, -, -, -, -, hinf, -⟩ := parse_fields hr
  refine ⟨hrk, hinf, ?_, ?_⟩
  · intro hf e hs
    rw [hrk, hinf]
    unfold infraFold
    rw [hf, hs]
    exact ⟨rfl, rfl⟩
  · intro hv hs hf
    rw [hinf]
    unfold infraFold
    rw [hf, hs, hv]

theorem c5_scan_order_witness :
    ({ taxon_rank := w "Subspecies", genus := w "Rosa", species := w "canina",
       genus_hybrid := [], species_hybrid := [], infraspecies := w "beta",
       variety := w "alba", subspecies := w "beta", form := [] } : ParsedName).infraspecies
        = w "beta" ∧
    ({ taxon_rank := w "Subspecies", genus := w "Rosa", species := w "canina",
       genus_hybrid := [], species_hybrid := [], infraspecies := w "beta",
       variety := w "alba", subspecies := w "beta", form := [] } : ParsedName).taxon_rank
        = w "Subspecies" :=
  (c5_scan_order "Rosa canina var. alba subsp. beta" false
    { taxon_rank := w "Subspecies", genus := w "Rosa", species := w "canina",
      genus_hybrid := [], species_hybrid := [], infraspecies := w "beta",
      variety := w "alba", subspecies := w "beta", form := [] }
    (by decide)).2.2.1 (by decide) (w "beta") (by decide)

/-! ### Last-token scans give nothing -/

theorem scanEpithet_none_of_last {a : List Char} {ts : List (List Char)}
    (hlast : firstIdx a ts + 1 = ts.length) : scanEpithet a ts = none := by
  unfold scanEpithet
  rw [hlast]
  exact List.get?_eq_none.mpr (le_refl _)

theorem varScan_none_of_pick_last {ts : List (List Char)} {a : List Char}
    (hp : varPick ts = some a) (hl : firstIdx a ts + 1 = ts.length) :
    varScan ts = none := by
  unfold varPick at hp
  unfold varScan
  split at hp <;> rename_i h1
  · obtain rfl := Option.some.inj hp
    rw [if_pos h1]
    exact scanEpithet_none_of_last hl
  · split at hp <;> rename_i h2
    · obtain rfl := Option.some.inj hp
      rw [if_neg h1, if_pos h2]
      exact scanEpithet_none_of_last hl
    · exact absurd hp (by simp)

theorem subspScan_none_of_pick_last {ts : List (List Char)} {a : List Char}
    (hp : subspPick ts = some a) (hl : firstIdx a ts + 1 = ts.length) :
    subspScan ts = none := by
  unfold subspPick at hp
  unfold subspScan
  split at hp <;> rename_i h1
  · obtain rfl := Option.some.inj hp
    rw [if_pos h1]
    exact scanEpithet_none_of_last hl
  · split at hp <;> rename_i h2
    · obtain rfl := Option.some.inj hp
      rw [if_neg h1, if_pos h2]
      exact scanEpithet_none_of_last hl
    · split at hp <;> rename_i h3
      · obtain rfl := Option.some.inj hp
        rw [if_neg h1, if_neg h2, if_pos h3]
        exact scanEpithet_none_of_last hl
      · split at hp <;> rename_i h4
        · obtain rfl := Option.some.inj hp
          rw [if_neg h1, if_neg h2, if_neg h3, if_pos h4]
          exact scanEpithet_none_of_last hl
        · exact absurd hp (by simp)

theorem formScan_none_of_pick_last {ts : List (List Char)} {a : List Char}
    (hp : formPick ts = some a) (hl : firstIdx a ts + 1 = ts.length) :
    formScan ts = none := by
  unfold formPick at hp
  unfold formScan
  split at hp <;> rename_i h1
  · obtain rfl := Option.some.inj hp
    rw [if_pos h1]
    exact scanEpithet_none_of_last hl
  · exact absurd hp (by simp)

/-! ### The exception model agrees with the total parser -/

theorem pyGetTok_lt {ts : List (List Char)} {i : Nat} (h : i < ts.length) :
    pyGetTok ts i = Except.ok (ts.getD i []) := by
  unfold pyGetTok
  rw [List.get?_eq_get h, List.getD_eq_getElem?_getD, List.getElem?_eq_getElem h]
  rfl

theorem scanAttempt_catch (a : List Char) (ts : List (List Char)) (hmem : a ∈ ts) :
    catchIndexErr (scanAttempt a ts) none = Except.ok (scanEpithet a ts) := by
  have h1 : scanAttempt a ts = match pyGetTok ts (firstIdx a ts + 1) with
      | .error e => .error e
      | .ok t => .ok (some t) := by
    unfold scanAttempt pyIndexOf
    rw [if_pos hmem]
  rw [h1]
  unfold pyGetTok scanEpithet
  cases hg : ts.get? (firstIdx a ts + 1) with
  | none => rfl
  | some t => rfl

theorem varScanExc_eq (ts : List (List Char)) :
    varScanExc ts = Except.ok (varScan ts) := by
  unfold varScanExc varScan
  by_cases h1 : w "var." ∈ ts
  · simp only [if_pos h1]
    exact scanAttempt_catch _ _ h1
  · by_cases h2 : w "var" ∈ ts
    · simp only [if_neg h1, if_pos h2]
      exact scanAttempt_catch _ _ h2
    · simp only [if_neg h1, if_neg h2]
      rfl

theorem subspScanExc_eq (ts : List (List Char)) :
    subspScanExc ts = Except.ok (subspScan ts) := by
  unfold subspScanExc subspScan
  by_cases h1 : w "subsp." ∈ ts
  · simp only [if_pos h1]
    exact scanAttempt_catch _ _ h1
  · by_cases h2 : w "ssp." ∈ ts
    · simp only [if_neg h1, if_pos h2]
      exact scanAttempt_catch _ _ h2
    · by_cases h3 : w "sbsp." ∈ ts
      · simp only [if_neg h1, if_neg h2, if_pos h3]
        exact scanAttempt_catch _ _ h3
      · by_cases h4 : w "subsp" ∈ ts
        · simp only [if_neg h1, if_neg h2, if_neg h3, if_pos h4]
          exact scanAttempt_catch _ _ h4
        · simp only [if_neg h1, if_neg h2, if_neg h3, if_neg h4]
          rfl

theorem formScanExc_eq (ts : List (List Char)) :
    formScanExc ts = Except.ok (formScan ts) := by
  unfold formScanExc formScan
  by_cases h1 : w "f." ∈ ts
  · simp only [if_pos h1]
    exact scanAttempt_catch _ _ h1
  · simp only [if_neg h1]
    rfl

theorem parseExcRest_ok (b gh : Bool) (g r0 : List Char) (ts2 : List (List Char)) :
    parseExcRest b gh g r0 ts2 = Except.ok (some
      { taxon_rank := (infraStage b (stripTokens ts2)
          (if (stripTokens ts2).length > 1 then w "Species" else r0)).1,
        genus := g,
        species := if (stripTokens ts2).length > 1 then (stripTokens ts2).getD 1 [] else [],
        genus_hybrid := if gh then w "×" else [],
        species_hybrid := if ts2.any (fun t => t.contains '×') then w "×" else [],
        infraspecies := (infraStage b (stripTokens ts2)
          (if (stripTokens ts2).length > 1 then w "Species" else r0)).2.1,
        variety := (infraStage b (stripTokens ts2)
          (if (stripTokens ts2).length > 1 then w "Species" else r0)).2.2.1,
        subspecies := (infraStage b (stripTokens ts2)
          (if (stripTokens ts2).length > 1 then w "Species" else r0)).2.2.2.1,
        form := (infraStage b (stripTokens ts2)
          (if (stripTokens ts2).length > 1 then w "Species" else r0)).2.2.2.2 }) := by
  by_cases hlen : (stripTokens ts2).length > 1
  · cases b <;>
      cases hv : varScan (stripTokens ts2) <;>
      cases hs : subspScan (stripTokens ts2) <;>
      cases hf : formScan (stripTokens ts2) <;>
      simp [parseExcRest, infraStage, varScanExc_eq, subspScanExc_eq, formScanExc_eq,
        hv, hs, hf, hlen, pyGetTok_lt hlen]
  · cases b <;>
      cases hv : varScan (stripTokens ts2) <;>
      cases hs : subspScan (stripTokens ts2) <;>
      cases hf : formScan (stripTokens ts2) <;>
      simp [parseExcRest, infraStage, varScanExc_eq, subspScanExc_eq, formScanExc_eq,
        hv, hs, hf, hlen]

theorem rankGenusStage_one (t : List Char) : rankGenusStage [t] = (w "Genus", [t]) := by
  unfold rankGenusStage
  simp

theorem rankGenusStage_two_mem {t u : List Char} (h : u ∈ abbreviation_ignore) :
    rankGenusStage [t, u] = (w "Genus", [t]) := by
  unfold rankGenusStage
  simp [h]

theorem rankGenusStage_other {ts : List (List Char)} (h1 : ts.length ≠ 1)
    (h2 : ¬(ts.length = 2 ∧ ts.getD 1 [] ∈ abbreviation_ignore)) :
    rankGenusStage ts = ([], ts) := by
  unfold rankGenusStage
  rw [if_neg h1, if_neg h2]

/-- Helper: the genus-rank branching of `parseExc`, folded into
`rankGenusStage`, for a working list of at least two tokens. -/
theorem parseExc_body (b gh : Bool) (t0' t1 : List Char) (rest' : List (List Char)) :
    (if (t0' :: t1 :: rest').length = 2 ∧ t1 ∈ abbreviation_ignore then
        parseExcRest b gh t0' (w "Genus") ((t0' :: t1 :: rest').eraseIdx 1)
      else parseExcRest b gh t0' [] (t0' :: t1 :: rest'))
    = parseExcRest b gh t0' (rankGenusStage (t0' :: t1 :: rest')).1
        (rankGenusStage (t0' :: t1 :: rest')).2 := by
  by_cases hc : (t0' :: t1 :: rest').length = 2 ∧ t1 ∈ abbreviation_ignore
  · rw [if_pos hc]
    have h2 : rankGenusStage (t0' :: t1 :: rest')
        = (w "Genus", (t0' :: t1 :: rest').eraseIdx 1) := by
      unfold rankGenusStage
      rw [if_neg (by simp), if_pos (show (t0' :: t1 :: rest').length = 2 ∧
          (t0' :: t1 :: rest').getD 1 [] ∈ abbreviation_ignore from hc)]
    rw [h2]
  · rw [if_neg hc]
    rw [rankGenusStage_other (by simp)
      (show ¬((t0' :: t1 :: rest').length = 2 ∧
          (t0' :: t1 :: rest').getD 1 [] ∈ abbreviation_ignore) from hc)]

/-- `parseExc` on a nonempty token list is `parseExcRest` fed through the
genus-hybrid and genus-rank stages. -/
theorem parseExc_cons {s : String} {b : Bool} {t0 : List Char}
    {rest : List (List Char)} (hts : tokenize s = t0 :: rest) (hw : t0 ≠ []) :
    parseExc s b = parseExcRest b (genusHybridCond t0)
      (if genusHybridCond t0 then t0.drop 1 else t0)
      (rankGenusStage ((if genusHybridCond t0 then t0.drop 1 else t0) :: rest)).1
      (rankGenusStage ((if genusHybridCond t0 then t0.drop 1 else t0) :: rest)).2 := by
  obtain ⟨c0, tl, rfl⟩ : ∃ c cs, t0 = c :: cs := by
    cases t0 with
    | nil => exact absurd rfl hw
    | cons c cs => exact ⟨c, cs, rfl⟩
  cases rest with
  | nil =>
    unfold parseExc
    rw [hts]
    rfl
  | cons t1 rest' =>
    refine Eq.trans ?_ (parseExc_body b (genusHybridCond (c0 :: tl))
      (if genusHybridCond (c0 :: tl) then (c0 :: tl).drop 1 else c0 :: tl) t1 rest')
    unfold parseExc
    rw [hts]
    rfl

/-- The central totality result: the exception-level model never escapes
with an error, and it computes exactly what the total parser computes. -/
theorem parseExc_ok (s : String) (b : Bool) :
    parseExc s b = Except.ok (parse s b) := by
  cases hts : tokenize s with
  | nil =>
    rw [(parse_eq_none_iff s b).mpr hts]
    unfold parseExc
    rw [hts]
    rfl
  | cons t0 rest =>
    have hw0 : Wordlike t0 :=
      tokenize_wordlike t0 (by rw [hts]; exact List.mem_cons_self _ _)
    rw [parseExc_cons hts hw0.1, parseExcRest_ok]
    rw [parse_some_eq b (by rw [hts]; simp)]
    have hag := tokensAfterGenus_eq hts
    simp only [tokensAfterHybrid, tokensAfterRank, preInfraRank, speciesOf,
      speciesHybridFlag, genusHybridFlag, genusOf, hag, hts]

/-- C2: on every string input and flag, the parser terminates with no
escaping exception: the exception-level model returns `ok`, and its value
is the total parser's result — `none` or a full nine-field record. -/
theorem c2_no_exception (s : String) (b : Bool) :
    parseExc s b = Except.ok (parse s b) :=
  parseExc_ok s b

/-- C6: when the abbreviation an infraspecific scan selects sits at the end
of the working tokens, parsing still completes without raising, that scan
yields nothing, the corresponding epithet field stays empty, and rank and
infraspecies are still determined by the remaining scans. -/
theorem c6_missing_epithet (s : String) (b : Bool) (h : tokenize s ≠ []) :
    parseExc s b = Except.ok (parse s b) ∧
    ∃ r, parse s b = some r ∧
      (∀ a, varPick (tokensAfterHybrid s) = some a →
          firstIdx a (tokensAfterHybrid s) + 1 = (tokensAfterHybrid s).length →
          varScan (tokensAfterHybrid s) = none ∧ r.variety = []) ∧
      (∀ a, subspPick (tokensAfterHybrid s) = some a →
          firstIdx a (tokensAfterHybrid s) + 1 = (tokensAfterHybrid s).length →
          subspScan (tokensAfterHybrid s) = none ∧ r.subspecies = []) ∧
      (b = false → ∀ a, formPick (tokensAfterHybrid s) = some a →
          firstIdx a (tokensAfterHybrid s) + 1 = (tokensAfterHybrid s).length →
          formScan (tokensAfterHybrid s) = none ∧ r.form = []) ∧
      r.taxon_rank = (infraFold b (tokensAfterHybrid s) (preInfraRank s)).1 ∧
      r.infraspecies = (infraFold b (tokensAfterHybrid s) (preInfraRank s)).2 := by
  refine ⟨parseExc_ok s b, ?_⟩
  cases hp : parse s b with
  | none => exact absurd ((parse_eq_none_iff s b).mp hp) h
  | some r =>
    obtain ⟨hrk, -, -, -, -, hinf, hv, hsu, hfo⟩ := parse_fields hp
    refine ⟨r, rfl, ?_, ?_, ?_, hrk, hinf⟩
    · intro a hpick hlast
      have hnone := varScan_none_of_pick_last hpick hlast
      exact ⟨hnone, by rw [hv, hnone]; rfl⟩
    · intro a hpick hlast
      have hnone := subspScan_none_of_pick_last hpick hlast
      exact ⟨hnone, by rw [hsu, hnone]; rfl⟩
    · intro hb a hpick hlast
      have hnone := formScan_none_of_pick_last hpick hlast
      exact ⟨hnone, by rw [hfo, hb, hnone]; rfl⟩

theorem c6_missing_epithet_witness :
    parseExc "Rosa canina var." false
      = Except.ok (parse "Rosa canina var." false) :=
  (c6_missing_epithet "Rosa canina var." false (by decide)).1

/-- C10: when the scientific-name column of a row holds an empty or
whitespace-only string, the wrapper does not return a row at all: the
parser returns null and the wrapper's iteration over it raises. -/
theorem c10_wrapper_raises (row : Row) (col : String) (b : Bool) (v : List Char)
    (hget : rowGet row col = some v) (hws : ∀ c ∈ v, c.isWhitespace = true) :
    generate_scientific_columns row col b = Except.error PyErr.typeError := by
  unfold generate_scientific_columns
  rw [hget]
  have hp : parse (String.mk v) b = none :=
    (parse_eq_none_iff _ _).mpr ((tokenize_nil_iff _).mpr (by simpa using hws))
  show (match parse (String.mk v) b with
    | none => Except.error PyErr.typeError
    | some p => Except.ok (writeParsed row p)) = Except.error PyErr.typeError
  rw [hp]

theorem c10_wrapper_raises_witness :
    generate_scientific_columns [("scientific_name", w "   ")] "scientific_name" false
      = Except.error PyErr.typeError :=
  c10_wrapper_raises [("scientific_name", w "   ")] "scientific_name" false
    (w "   ") (by decide) (by decide)

/-! ### Round-trip lemmas -/

theorem wordlike_no_space {t : List Char} (h : Wordlike t) : ' ' ∉ t :=
  fun hm => absurd (h.2 ' ' hm) (by decide)

theorem head?_mem {l : List Char} {c : Char} (h : l.head? = some c) : c ∈ l := by
  cases l with
  | nil => simp at h
  | cons a l =>
    simp only [List.head?_cons, Option.some.injEq] at h
    rw [← h]
    exact List.mem_cons_self _ _

theorem genusHybridCond_false {g : List Char} (hgx : '×' ∉ g) :
    genusHybridCond g = false := by
  cases hgc : genusHybridCond g with
  | false => rfl
  | true =>
    obtain ⟨hh, -⟩ := genusHybridCond_iff.mp hgc
    exact absurd (head?_mem hh) hgx

theorem occursIn_count {pat l : List Char} (h : OccursIn pat l) (a : Char) :
    pat.count a ≤ l.count a := by
  obtain ⟨u, v, rfl⟩ := h
  rw [List.count_append, List.count_append]
  omega

theorem count_space_pat {ch : Char} (hch : ch ≠ ' ') :
    ([' ', ch, ' '] : List Char).count ' ' = 2 := by
  simp [List.count_cons, hch]

theorem noOccur_join2 {ch : Char} {g sp : List Char} (hch : ch ≠ ' ')
    (hg : ' ' ∉ g) (hsp : ' ' ∉ sp) :
    ¬ OccursIn [' ', ch, ' '] (g ++ ' ' :: sp) := by
  intro h
  have h2 := occursIn_count h ' '
  rw [count_space_pat hch, List.count_append, List.count_cons,
    List.count_eq_zero.mpr hg, List.count_eq_zero.mpr hsp] at h2
  simp at h2

theorem sep_split_eq {u1 v1 u2 v2 : List Char}
    (h : u1 ++ ' ' :: v1 = u2 ++ ' ' :: v2) (h1 : ' ' ∉ u1) (h2 : ' ' ∉ u2) :
    u1 = u2 ∧ v1 = v2 := by
  induction u1 generalizing u2 with
  | nil =>
    cases u2 with
    | nil => simpa using h
    | cons c u2' =>
      simp only [List.nil_append, List.cons_append, List.cons.injEq] at h
      rw [← h.1] at h2
      exact absurd (List.mem_cons_self _ _) h2
  | cons a u1' ih =>
    cases u2 with
    | nil =>
      simp only [List.cons_append, List.nil_append, List.cons.injEq] at h
      rw [h.1] at h1
      exact absurd (List.mem_cons_self _ _) h1
    | cons c u2' =>
      simp only [List.cons_append, List.cons.injEq] at h
      obtain ⟨ha, htail⟩ := h
      have hr := ih htail (fun hm => h1 (List.mem_cons_of_mem _ hm))
        (fun hm => h2 (List.mem_cons_of_mem _ hm))
      exact ⟨by rw [ha, hr.1], hr.2⟩

theorem noOccur_join3 {ch : Char} {g sp inf : List Char} (hch : ch ≠ ' ')
    (hg : ' ' ∉ g) (hsp : ' ' ∉ sp) (hinf : ' ' ∉ inf)
    (hspne : sp ≠ []) (hne : sp ≠ [ch]) :
    ¬ OccursIn [' ', ch, ' '] (g ++ ' ' :: (sp ++ ' ' :: inf)) := by
  rintro ⟨u, v, hu⟩
  have hu' : g ++ ' ' :: (sp ++ ' ' :: inf) = u ++ ' ' :: (ch :: ' ' :: v) := by
    rw [hu]; simp
  have hcnt : (g ++ ' ' :: (sp ++ ' ' :: inf)).count ' ' = 2 := by
    rw [List.count_append, List.count_cons, List.count_append, List.count_cons,
      List.count_eq_zero.mpr hg, List.count_eq_zero.mpr hsp,
      List.count_eq_zero.mpr hinf]
    simp
  have hucnt : ' ' ∉ u := by
    rw [hu', List.count_append, List.count_cons, List.count_cons,
      List.count_cons] at hcnt
    refine List.count_eq_zero.mp ?_
    simp only [beq_self_eq_true, if_true] at hcnt
    omega
  obtain ⟨rfl, htl⟩ := sep_split_eq hu' hg hucnt
  cases sp with
  | nil => exact hspne rfl
  | cons s0 sp' =>
    simp only [List.cons_append, List.cons.injEq] at htl
    obtain ⟨rfl, htl2⟩ := htl
    cases sp' with
    | nil => exact hne rfl
    | cons s1 sp'' =>
      simp only [List.cons_append, List.cons.injEq] at htl2
      rw [htl2.1] at hsp
      exact hsp (List.mem_cons_of_mem _ (List.mem_cons_self _ _))

theorem cleanName_noop {l : List Char} (h1 : ¬ OccursIn [' ', 'x', ' '] l)
    (h2 : ¬ OccursIn [' ', 'X', ' '] l) : cleanName l = l := by
  unfold cleanName
  rw [repl3_noop ' ' 'x' ' ' (w " × ") l h1]
  rw [repl3_noop ' ' 'X' ' ' (w " × ") l h2]

theorem parse_genus_species {s : String} (b : Bool) {g sp : List Char}
    (hts : tokenize s = [g, sp])
    (hgc : genusHybridCond g = false)
    (habb : sp ∉ abbreviation_ignore)
    (hgx : '×' ∉ g) (hspx : '×' ∉ sp) :
    (parse s b).map (fun q => (q.genus, q.species)) = some (g, sp) := by
  rw [parse_some_eq b (by rw [hts]; simp)]
  have hag : tokensAfterGenus s = [g, sp] := by
    rw [tokensAfterGenus_eq hts, if_neg (by simp [hgc])]
  have har : tokensAfterRank s = [g, sp] := by
    unfold tokensAfterRank
    rw [hag, rankGenusStage_other (by simp) (by simp [habb])]
  have hstrip : stripTokens [g, sp] = [g, sp] := by
    unfold stripTokens
    rw [if_neg (by simp [hgx, hspx])]
  have hah : tokensAfterHybrid s = [g, sp] := by
    unfold tokensAfterHybrid
    rw [har, hstrip]
  have hgen : genusOf s = g := by
    rw [genusOf_eq hts, if_neg (by simp [hgc])]
  have hspec : speciesOf s = sp := by
    unfold speciesOf
    rw [hah]
    simp
  simp [hgen, hspec]

theorem parse_three_tokens {s : String} (b : Bool) {g sp inf : List Char}
    (hts : tokenize s = [g, sp, inf])
    (hgc : genusHybridCond g = false)
    (hgx : '×' ∉ g) (hspx : '×' ∉ sp) (hinfx : '×' ∉ inf) :
    (parse s b).map (fun q => (q.genus, q.species)) = some (g, sp) := by
  rw [parse_some_eq b (by rw [hts]; simp)]
  have hag : tokensAfterGenus s = [g, sp, inf] := by
    rw [tokensAfterGenus_eq hts, if_neg (by simp [hgc])]
  have har : tokensAfterRank s = [g, sp, inf] := by
    unfold tokensAfterRank
    rw [hag, rankGenusStage_other (by simp) (by simp)]
  have hstrip : stripTokens [g, sp, inf] = [g, sp, inf] := by
    unfold stripTokens
    rw [if_neg (by simp [hgx, hspx, hinfx])]
  have hah : tokensAfterHybrid s = [g, sp, inf] := by
    unfold tokensAfterHybrid
    rw [har, hstrip]
  have hgen : genusOf s = g := by
    rw [genusOf_eq hts, if_neg (by simp [hgc])]
  have hspec : speciesOf s = sp := by
    unfold speciesOf
    rw [hah]
    simp
  simp [hgen, hspec]

theorem infraFold_inf_mem (b : Bool) (ts : List (List Char)) (r0 : List Char) :
    (infraFold b ts r0).2 = [] ∨ (infraFold b ts r0).2 ∈ ts := by
  unfold infraFold
  cases hf : (if b then none else formScan ts) with
  | some e =>
    right
    have hfs : formScan ts = some e := by
      cases b with
      | true => simp at hf
      | false => simpa using hf
    exact formScan_mem hfs
  | none =>
    cases hs : subspScan ts with
    | some e => right; exact subspScan_mem hs
    | none =>
      cases hv : varScan ts with
      | some e => right; exact varScan_mem hv
      | none => left; rfl

/-- C9 counterexample: in `Rosa cv. alba` the species field is the
ignorable abbreviation `cv.`; re-parsing the rejoined fields `Rosa cv.`
discards the abbreviation and yields an empty species, so the round trip
does not preserve the species. -/
theorem c9_counterexample :
    (parse "Rosa cv. alba" false).map
        (fun r => (r.genus, r.species, r.infraspecies)) =
      some (w "Rosa", w "cv.", []) ∧
    (parse "Rosa cv. alba" false).map (fun r => rejoin r) = some "Rosa cv." ∧
    (parse "Rosa cv." false).map (fun q => (q.genus, q.species)) =
      some (w "Rosa", []) ∧
    w "cv." ≠ [] := by decide

/-- C9 amended: the round trip preserves genus and species provided the
hybrid sign occurs in none of the three rejoined fields, the species is not
an ignorable abbreviation when infraspecies is empty, and the species is
not a bare `x`/`X` when infraspecies is present. -/
theorem c9_roundtrip_amended (s : String) (b b2 : Bool) (r : ParsedName)
    (hr : parse s b = some r)
    (hsp : r.species ≠ [])
    (hgx : '×' ∉ r.genus) (hspx : '×' ∉ r.species) (hinfx : '×' ∉ r.infraspecies)
    (habb : r.infraspecies = [] → r.species ∉ abbreviation_ignore)
    (hxX : r.infraspecies ≠ [] → r.species ≠ w "x" ∧ r.species ≠ w "X") :
    (parse (rejoin r) b2).map (fun q => (q.genus, q.species)) =
      some (r.genus, r.species) := by
  have hne : tokenize s ≠ [] := parse_ne_tokenize hr
  obtain ⟨-, hgeq, hspeq, -, -, hinfeq, -⟩ := parse_fields hr
  have hgw : Wordlike r.genus := hgeq ▸ genusOf_wordlike hne
  have hspw : Wordlike r.species := by
    rcases speciesOf_wordlike s with h | ⟨-, h⟩
    · exact absurd (hspeq.trans h) hsp
    · exact hspeq ▸ h
  have hinfw : r.infraspecies = [] ∨ Wordlike r.infraspecies := by
    rcases infraFold_inf_mem b (tokensAfterHybrid s) (preInfraRank s) with h | h
    · left; rw [hinfeq, h]
    · right; rw [hinfeq]; exact tokensAfterHybrid_wordlike _ h
  have hgn : ' ' ∉ r.genus := wordlike_no_space hgw
  have hsn : ' ' ∉ r.species := wordlike_no_space hspw
  have hgc : genusHybridCond r.genus = false := genusHybridCond_false hgx
  by_cases hinf : r.infraspecies = []
  · have hjoin : rejoin r = String.mk (r.genus ++ ' ' :: r.species) := by
      unfold rejoin
      rw [if_pos hinf]
      simp
    rw [hjoin]
    have htok : tokenize (String.mk (r.genus ++ ' ' :: r.species))
        = [r.genus, r.species] := by
      unfold tokenize
      rw [show (String.mk (r.genus ++ ' ' :: r.species)).data
          = r.genus ++ ' ' :: r.species from rfl]
      rw [cleanName_noop (noOccur_join2 (by decide) hgn hsn)
        (noOccur_join2 (by decide) hgn hsn)]
      rw [splitWs_word_sep _ _ hgw, splitWs_word _ hspw]
    exact parse_genus_species b2 htok hgc (habb hinf) hgx hspx
  · have hinfw' : Wordlike r.infraspecies := hinfw.resolve_left hinf
    have hin : ' ' ∉ r.infraspecies := wordlike_no_space hinfw'
    have hjoin : rejoin r
        = String.mk (r.genus ++ ' ' :: (r.species ++ ' ' :: r.infraspecies)) := by
      unfold rejoin
      rw [if_neg hinf]
    rw [hjoin]
    obtain ⟨hx1, hx2⟩ := hxX hinf
    have htok : tokenize (String.mk
        (r.genus ++ ' ' :: (r.species ++ ' ' :: r.infraspecies)))
        = [r.genus, r.species, r.infraspecies] := by
      unfold tokenize
      rw [show (String.mk (r.genus ++ ' ' :: (r.species ++ ' ' :: r.infraspecies))).data
          = r.genus ++ ' ' :: (r.species ++ ' ' :: r.infraspecies) from rfl]
      rw [cleanName_noop
        (noOccur_join3 (by decide) hgn hsn hin hspw.1 hx1)
        (noOccur_join3 (by decide) hgn hsn hin hspw.1 hx2)]
      rw [splitWs_word_sep _ _ hgw, splitWs_word_sep _ _ hspw,
        splitWs_word _ hinfw']
    exact parse_three_tokens b2 htok hgc hgx hspx hinfx

theorem c9_roundtrip_amended_witness :
    (parse (rejoin
      { taxon_rank := w "Variety", genus := w "Rosa", species := w "canina",
        genus_hybrid := [], species_hybrid := [], infraspecies := w "alba",
        variety := w "alba", subspecies := [], form := [] }) false).map
      (fun q => (q.genus, q.species)) = some (w "Rosa", w "canina") :=
  c9_roundtrip_amended "Rosa canina var. alba" false false
    { taxon_rank := w "Variety", genus := w "Rosa", species := w "canina",
      genus_hybrid := [], species_hybrid := [], infraspecies := w "alba",
      variety := w "alba", subspecies := [], form := [] }
    (by decide) (by decide) (by decide) (by decide) (by decide)
    (by decide) (by decide)

end SciName
